import Mathlib

/-!
Verification of the `HtmlParser` core of the rival.sale scraper
(src/apps/scraper/src/index.ts, html-parser part).

The TypeScript code is shallowly embedded: DOM queries performed by
`parseAdElement` are abstracted into an `AdContainer` record holding the
raw text/attribute values those queries return; every text-processing
function (`parsePrice`, `parseLocation`, `parsePostedDate`,
`extractDaysAgo`, `parseMetrics`, ...) is translated to a total Lean
function on `List Char` / `String`.  JavaScript numbers are modelled by
exact arithmetic (`ℚ` for `parseFloat` results, `ℤ` for timestamps and
`parseInt` results, ideal integers instead of IEEE doubles), and
`Date.now()` capture times are threaded explicitly as an integer
millisecond parameter.  JavaScript regular-expression matching
(`String.prototype.match` with the literal patterns of the source) is
embedded as an explicit leftmost scan; for the three patterns appearing
in the source the greedy maximal-munch scan implemented here coincides
with backtracking semantics, because every subpattern boundary is
committed (a shorter `\d+`, `\s+` or `\s*` run always leaves the next
subpattern looking at a character it cannot accept).
-/

namespace RivalSale

/-! ### JavaScript character classes and case folding -/

/-- Whitespace characters recognised by the JavaScript `\s` class and
`String.prototype.trim` (the ones representable in scraped text). -/
def isWsB (c : Char) : Bool :=
  c = ' ' || c = '\t' || c = '\n' || c = '\r' ||
  c = Char.ofNat 11 || c = Char.ofNat 12 || c = Char.ofNat 160 ||
  c = Char.ofNat 8232 || c = Char.ofNat 8233 || c = Char.ofNat 65279

/-- Decimal digit, the JavaScript `\d` class. -/
def isDigitB (c : Char) : Bool :=
  '0' ≤ c && c ≤ '9'

/-- Case folding used by the `i` regex flag, restricted to the characters
occurring in the source patterns (ASCII letters plus U+00C2, the first
byte of the mojibake euro alternative of the price regex). -/
def caseFold (c : Char) : Char :=
  if 'A' ≤ c && c ≤ 'Z' then Char.ofNat (c.toNat + 32)
  else if c = 'Â' then 'â'
  else c

/-- JavaScript `String.prototype.toLowerCase` on one character, for the
characters reachable from the embedded code. -/
def jsToLowerChar (c : Char) : Char :=
  if 'A' ≤ c && c ≤ 'Z' then Char.ofNat (c.toNat + 32)
  else if c = 'Â' then 'â'
  else c

/-- JavaScript `String.prototype.toUpperCase` on one character, for the
characters reachable from the embedded code. -/
def jsToUpperChar (c : Char) : Char :=
  if 'a' ≤ c && c ≤ 'z' then Char.ofNat (c.toNat - 32)
  else if c = 'â' then 'Â'
  else c

/-- Value of a string of decimal digits (the exact value `parseInt`
returns on an all-digit string, modelling JavaScript numbers as ideal
integers). -/
def digitsToNat (l : List Char) : ℕ :=
  l.foldl (fun acc c => acc * 10 + (c.toNat - '0'.toNat)) 0

/-! ### JavaScript string primitives -/

/-- JavaScript `String.prototype.trim` on a character list. -/
def trimChars (l : List Char) : List Char :=
  ((l.dropWhile isWsB).reverse.dropWhile isWsB).reverse

/-- JavaScript `s.replace(/\s+/g, " ")`: every maximal whitespace run
becomes a single space. -/
def squashWs : List Char → List Char
  | [] => []
  | c :: r =>
    if isWsB c then
      match r with
      | [] => [' ']
      | c2 :: r2 =>
        if isWsB c2 then squashWs (c2 :: r2) else ' ' :: squashWs (c2 :: r2)
    else c :: squashWs r

/-- The cleaning step `text.replace(/\s+/g, " ").trim()` used by
`parsePrice` and `parseLocation`. -/
def cleanChars (l : List Char) : List Char :=
  trimChars (squashWs l)

/-- String wrapper for `trimChars` (JavaScript `.trim()`). -/
def jsTrim (s : String) : String :=
  String.mk (trimChars s.data)

/-- Case-sensitive prefix test, JavaScript `String.prototype.startsWith`. -/
def jsStartsWith (p : String) (s : String) : Bool :=
  p.data.isPrefixOf s.data

/-- Substring containment, JavaScript `String.prototype.includes`,
on character lists. -/
def containsSeq (pat : List Char) (l : List Char) : Bool :=
  l.tails.any (fun t => pat.isPrefixOf t)

/-- JavaScript `a.split(" ")` on a character list (empty input yields one
empty field, like in JavaScript). -/
def splitSpace : List Char → List (List Char)
  | [] => [[]]
  | c :: r =>
    if c = ' ' then [] :: splitSpace r
    else
      match splitSpace r with
      | [] => [[c]]
      | h :: t => (c :: h) :: t

/-- JavaScript `parseInt(s) || 0`: skip leading whitespace, optional
sign, read a decimal digit prefix; no digits (NaN) falls back to 0. -/
def jsParseIntOr0 (s : String) : ℤ :=
  let l := s.data.dropWhile isWsB
  match l with
  | '-' :: r =>
    let ds := r.takeWhile isDigitB
    if ds = [] then 0 else -(digitsToNat ds : ℤ)
  | '+' :: r =>
    let ds := r.takeWhile isDigitB
    if ds = [] then 0 else (digitsToNat ds : ℤ)
  | r =>
    let ds := r.takeWhile isDigitB
    if ds = [] then 0 else (digitsToNat ds : ℤ)

/-! ### The price regex

The source matches `cleanText` against the literal pattern
`/(\d+(?:\.\d+)?)\s*(din|rsd|eur|usd|\$|â‚¬)/i`.  The last alternative is
the three-character mojibake sequence U+00E2 U+201A U+00AC (the UTF-8
bytes of the euro sign decoded as Windows-1252), exactly as it appears
byte-for-byte in the source file; it is not the euro sign U+20AC. -/

/-- Case-insensitive literal prefix match (regex `i` flag). -/
def cfPrefix (pat : List Char) (l : List Char) : Bool :=
  (l.take pat.length).map caseFold = pat.map caseFold

/-- The currency alternatives of the price regex, in source order.  The
last entry is the mojibake sequence that stands where the author
intended a euro sign. -/
def currencyTokens : List (List Char) :=
  [['d', 'i', 'n'], ['r', 's', 'd'], ['e', 'u', 'r'], ['u', 's', 'd'],
   ['$'], ['â', '‚', '¬']]

/-- Try the currency alternation at the head of `l`, returning the
matched source text (regex alternation, first alternative wins; the
six alternatives have pairwise distinct case-folded first characters,
so order cannot matter here). -/
def matchCurrencyAt (l : List Char) : Option (List Char) :=
  (currencyTokens.find? (fun t => cfPrefix t l)).map (fun t => l.take t.length)

/-- Optional fractional part `(?:\.\d+)?` with the following context:
consumes a dot plus a nonempty digit run when present. -/
def takeFrac (l : List Char) : List Char × List Char :=
  match l with
  | '.' :: r =>
    let ds := r.takeWhile isDigitB
    if ds = [] then ([], l) else ('.' :: ds, r.dropWhile isDigitB)
  | _ => ([], l)

/-- One attempt of the price pattern anchored at the head of `l`,
returning the integer digits, the optional fraction digits and the
matched currency text. -/
def tryPriceAt (l : List Char) : Option (List Char × Option (List Char) × List Char) :=
  let ds := l.takeWhile isDigitB
  if ds = [] then none
  else
    let r1 := l.dropWhile isDigitB
    match r1 with
    | '.' :: r2 =>
      let es := r2.takeWhile isDigitB
      if es = [] then
        -- fraction not taken; `\s*` cannot consume the dot and no
        -- currency alternative starts with a dot, so fail here
        none
      else
        let r3 := (r2.dropWhile isDigitB).dropWhile isWsB
        match matchCurrencyAt r3 with
        | some t => some (ds, some es, t)
        | none => none
    | _ =>
      let r3 := r1.dropWhile isWsB
      match matchCurrencyAt r3 with
      | some t => some (ds, none, t)
      | none => none

/-- Leftmost scan of the price pattern (JavaScript `String.match`
without the `g` flag). -/
def scanPrice : List Char → Option (List Char × Option (List Char) × List Char)
  | [] => none
  | c :: r =>
    match tryPriceAt (c :: r) with
    | some m => some m
    | none => scanPrice r

/-- Exact value of `parseFloat` on the captured numeral `ds(.es)?`
(ideal arithmetic over ℚ). -/
def numeralValue (ds : List Char) (es : Option (List Char)) : ℚ :=
  match es with
  | none => (digitsToNat ds : ℚ)
  | some f => (digitsToNat ds : ℚ) + (digitsToNat f : ℚ) / ((10 : ℚ) ^ f.length)

/-! ### The posted-time regexes -/

/-- Literal `pre` of the posted-time patterns. -/
def preChars : List Char := ['p', 'r', 'e']

/-- Literal `dan` of the day patterns. -/
def danChars : List Char := ['d', 'a', 'n']

/-- One attempt of the `extractDaysAgo` pattern `pre\s+(\d+)\s+dan`
anchored at the head of `l`, returning the captured digits. -/
def tryDayAt (l : List Char) : Option (List Char) :=
  if cfPrefix preChars l then
    let r0 := l.drop preChars.length
    let w1 := r0.takeWhile isWsB
    let r1 := r0.dropWhile isWsB
    let ds := r1.takeWhile isDigitB
    let r2 := r1.dropWhile isDigitB
    let w2 := r2.takeWhile isWsB
    let r3 := r2.dropWhile isWsB
    if w1 ≠ [] ∧ ds ≠ [] ∧ w2 ≠ [] ∧ cfPrefix danChars r3 then some ds else none
  else none

/-- Leftmost scan for the day pattern. -/
def scanDay : List Char → Option (List Char)
  | [] => none
  | c :: r =>
    match tryDayAt (c :: r) with
    | some m => some m
    | none => scanDay r

/-- The unit alternation `(dan|dana|sat|sati|minut|minuta)` of
`parsePostedDate`, in source order (order matters: `dan` shadows
`dana`, `sat` shadows `sati`, `minut` shadows `minuta`). -/
def unitTokens : List (List Char) :=
  [['d', 'a', 'n'], ['d', 'a', 'n', 'a'], ['s', 'a', 't'],
   ['s', 'a', 't', 'i'], ['m', 'i', 'n', 'u', 't'],
   ['m', 'i', 'n', 'u', 't', 'a']]

/-- Try the unit alternation at the head of `l`, returning the matched
source text. -/
def matchUnitAt (l : List Char) : Option (List Char) :=
  (unitTokens.find? (fun t => cfPrefix t l)).map (fun t => l.take t.length)

/-- One attempt of the `parsePostedDate` pattern
`pre\s+(\d+)\s+(dan|dana|sat|sati|minut|minuta)` anchored at the head
of `l`, returning the captured digits and unit text. -/
def tryPostedAt (l : List Char) : Option (List Char × List Char) :=
  if cfPrefix preChars l then
    let r0 := l.drop preChars.length
    let w1 := r0.takeWhile isWsB
    let r1 := r0.dropWhile isWsB
    let ds := r1.takeWhile isDigitB
    let r2 := r1.dropWhile isDigitB
    let w2 := r2.takeWhile isWsB
    let r3 := r2.dropWhile isWsB
    if w1 ≠ [] ∧ ds ≠ [] ∧ w2 ≠ [] then
      match matchUnitAt r3 with
      | some u => some (ds, u)
      | none => none
    else none
  else none

/-- Leftmost scan for the posted-time pattern. -/
def scanPosted : List Char → Option (List Char × List Char)
  | [] => none
  | c :: r =>
    match tryPostedAt (c :: r) with
    | some m => some m
    | none => scanPosted r

/-! ### Data model (packages/types, `@repo/types`) -/

/-- The `AdPrice` record of the shared types package.  `amount` carries
the exact value of the JavaScript number. -/
structure AdPrice where
  amount : ℚ
  currency : String
  formatted : String
  deriving DecidableEq, Repr

/-- The `AdLocation` record. -/
structure AdLocation where
  name : String
  hasDelivery : Bool
  deriving DecidableEq, Repr

/-- The `AdImage` record (`width`/`height` are strings in the source;
`loading` is the raw attribute value). -/
structure AdImage where
  url : String
  alt : String
  width : String
  height : String
  loading : Option String
  deriving DecidableEq, Repr

/-- The `AdSeller` record. -/
structure AdSeller where
  name : Option String
  hasKpStore : Bool
  storeUrl : Option String
  storeId : Option String
  deriving DecidableEq, Repr

/-- The `AdMetrics` record.  `postedDate` is the epoch-millisecond
value of the optional JavaScript `Date`. -/
structure AdMetrics where
  views : ℤ
  favorites : ℤ
  postedAgo : String
  postedDate : Option ℤ
  deriving DecidableEq, Repr

/-- The `AdStatus` record. -/
structure AdStatus where
  isActive : Bool
  isPromoted : Bool
  hasPromotion : Bool
  deriving DecidableEq, Repr

/-- The `AdMetadata` record. -/
structure AdMetadata where
  sectionId : String
  classes : List String
  scrolled : Bool
  category : String
  subcategory : String
  deriving DecidableEq, Repr

/-- The `KupujemProdajemAd` record: one raw marketplace listing. -/
structure KupujemProdajemAd where
  id : String
  title : String
  price : AdPrice
  location : AdLocation
  description : String
  images : List AdImage
  url : String
  seller : AdSeller
  metrics : AdMetrics
  status : AdStatus
  metadata : AdMetadata
  deriving DecidableEq, Repr

/-- The derived `parsed` block of a `ParsedAd`. -/
structure ParsedFields where
  priceNumeric : ℚ
  postedDaysAgo : ℕ
  imageUrls : List String
  isValidAd : Bool
  deriving DecidableEq, Repr

/-- The `scrapingMetadata` block of a `ParsedAd`.  `scrapedAt` is the
epoch-millisecond capture time. -/
structure ScrapingMetadata where
  scrapedAt : ℤ
  sourceUrl : String
  parsingSuccess : Bool
  parsingErrors : List String
  deriving DecidableEq, Repr

/-- The `ParsedAd` record wrapping a raw ad. -/
structure ParsedAd where
  raw : KupujemProdajemAd
  parsed : ParsedFields
  scrapingMetadata : ScrapingMetadata
  deriving DecidableEq, Repr

/-- Error categories of the `ParsingError` type. -/
inductive ErrorType where
  | MISSING_SELECTOR
  | INVALID_DATA
  | EXTRACTION_FAILED
  deriving DecidableEq, Repr

/-- The `ParsingError` record. -/
structure ParsingError where
  type : ErrorType
  message : String
  adIndex : Option ℕ
  deriving DecidableEq, Repr

/-- The `ParsingWarning` record (never constructed by the parser). -/
structure ParsingWarning where
  type : String
  message : String
  deriving DecidableEq, Repr

/-- The `stats` block of a `HtmlParsingResult`. -/
structure ParsingStats where
  totalAdsFound : ℕ
  successfullyParsed : ℕ
  failedToParse : ℕ
  parsingTimeMs : ℤ
  htmlSizeKb : ℕ
  deriving DecidableEq, Repr

/-- The `HtmlParsingResult` record returned by `parseHtmlFile`. -/
structure HtmlParsingResult where
  success : Bool
  extractedAds : List ParsedAd
  errors : List ParsingError
  warnings : List ParsingWarning
  stats : ParsingStats
  deriving DecidableEq, Repr

/-! ### DOM abstraction

`parseAdElement` reads a fixed set of values out of one ad-container
DOM node through cheerio queries.  An `AdContainer` records exactly
those values: each field is the raw string a query returns (`Option`
where the attribute or element can be absent, which cheerio reports as
`undefined`). -/

/-- Raw attribute values of the first `img` element of a container
(`none` when the container has no `img`, cheerio attr and css lookups
each optional). -/
structure ImgEl where
  srcAttr : Option String
  altAttr : Option String
  widthAttr : Option String
  cssWidth : Option String
  heightAttr : Option String
  cssHeight : Option String
  loadingAttr : Option String
  deriving DecidableEq, Repr

/-- One ad-container DOM node, abstracted to the values the cheerio
queries of `parseAdElement` return on it. -/
structure AdContainer where
  /-- value of `attr("id")` on the section element -/
  idAttr : Option String
  /-- value of `attr("data-scrolled")` -/
  dataScrolled : Option String
  /-- value of `attr("class")` -/
  classAttr : Option String
  /-- text of the `.AdItem_name__Knlo6` selection -/
  titleText : String
  /-- href of the first `a[href*="/oglas/"]` anchor, `none` when absent -/
  oglasHref : Option String
  /-- text of the `.AdItem_price__K4GWJ` selection -/
  priceText : String
  /-- text of the first `.AdItem_originAndPromoLocation__3MXPY p` -/
  locationText : String
  /-- raw text of every `p` descendant, in document order -/
  paragraphTexts : List String
  /-- the first `img` element, when present -/
  firstImg : Option ImgEl
  /-- first `a[href*="kpizlog.rs"]` link: its href attribute and the
  concatenated text of the selection, `none` when no such link -/
  kpStore : Option (Option String × String)
  /-- text of `.AdItem_count__twhsU` inside each
  `.AdItem_favoriteHolder__ebvyz`, in document order -/
  counterTexts : List String
  /-- text of the `.AdItem_postedStatus__qQuya p` selection -/
  postedText : String
  /-- whether a `.AdItem_promotion__G0_vk` element exists -/
  promotionPresent : Bool
  deriving DecidableEq, Repr

/-- An HTML document as seen by the parser: the list of nodes matching
the ad-container selector
`section[id][class*="AdItem_adOuterHolder"]`, plus the raw byte length
of the HTML text (for the `htmlSizeKb` statistic). -/
structure HtmlDoc where
  containers : List AdContainer
  rawLength : ℕ
  deriving DecidableEq, Repr

/-! ### Field extractors -/

/-- The `parsePrice` method: clean whitespace, match the price regex,
normalize the currency (`din` maps to `RSD`, anything else is
upper-cased), keep the cleaned text in `formatted`; on no match return
amount 0, currency `RSD` and the cleaned text. -/
def parsePrice (priceText : String) : AdPrice :=
  let clean := cleanChars priceText.data
  match scanPrice clean with
  | some (ds, es, tok) =>
    let cur := tok.map jsToLowerChar
    { amount := numeralValue ds es
      currency :=
        if cur = ['d', 'i', 'n'] then "RSD"
        else String.mk (cur.map jsToUpperChar)
      formatted := String.mk clean }
  | none =>
    { amount := 0, currency := "RSD", formatted := String.mk clean }

/-- The `parseLocation` method: whitespace-normalize the text;
delivery detection is a fixed `false`. -/
def parseLocation (locationText : String) : AdLocation :=
  { name := String.mk (cleanChars locationText.data), hasDelivery := false }

/-- JavaScript `a || b || ""` over optional attribute values: the first
defined, non-empty string, else the empty string. -/
def jsOrEmpty : List (Option String) → String
  | [] => ""
  | some s :: r => if s = "" then jsOrEmpty r else s
  | none :: r => jsOrEmpty r

/-- The `parseImages` method on the first `img` element of the
container: empty list when there is no image, otherwise a singleton
record of its attributes. -/
def parseImages (img : Option ImgEl) : List AdImage :=
  match img with
  | none => []
  | some im =>
    [{ url := jsOrEmpty [im.srcAttr]
       alt := jsOrEmpty [im.altAttr]
       width := jsOrEmpty [im.widthAttr, im.cssWidth]
       height := jsOrEmpty [im.heightAttr, im.cssHeight]
       loading := im.loadingAttr }]

/-- JavaScript `\w` plus dash: the characters kept by
`replace(/[^\w-]/g, "")`. -/
def isWordDashB (c : Char) : Bool :=
  ('A' ≤ c && c ≤ 'Z') || ('a' ≤ c && c ≤ 'z') ||
  ('0' ≤ c && c ≤ '9') || c = '_' || c = '-'

/-- The `parseSeller` method: a `kpizlog.rs` link marks a store; the
store id is the display text stripped of non-word characters. -/
def parseSeller (kp : Option (Option String × String)) : AdSeller :=
  match kp with
  | some (href, text) =>
    { name := none
      hasKpStore := true
      storeUrl := some (jsOrEmpty [href])
      storeId := some (String.mk ((trimChars text.data).filter isWordDashB)) }
  | none =>
    { name := none, hasKpStore := false, storeUrl := none, storeId := none }

/-- Character-list core of the `parsePostedDate` method: match the
relative-time pattern and subtract the scaled amount from the capture
time `now` (epoch milliseconds); no match leaves the date undefined. -/
def parsePostedDateL (l : List Char) (now : ℤ) : Option ℤ :=
  match scanPosted l with
  | some (ds, ut) =>
    let unit := ut.map jsToLowerChar
    let number : ℤ := (digitsToNat ds : ℤ)
    if containsSeq danChars unit then
      some (now - number * (24 * 60 * 60 * 1000))
    else if containsSeq ['s', 'a', 't'] unit then
      some (now - number * (60 * 60 * 1000))
    else if containsSeq ['m', 'i', 'n', 'u', 't'] unit then
      some (now - number * (60 * 1000))
    else none
  | none => none

/-- The `parsePostedDate` method on strings. -/
def parsePostedDate (postedAgo : String) (now : ℤ) : Option ℤ :=
  parsePostedDateL postedAgo.data now

/-- Character-list core of the `extractDaysAgo` method: capture of the
day-only pattern, 0 on no match. -/
def extractDaysAgoL (l : List Char) : ℕ :=
  match scanDay l with
  | some ds => digitsToNat ds
  | none => 0

/-- The `extractDaysAgo` method on strings. -/
def extractDaysAgo (postedAgo : String) : ℕ :=
  extractDaysAgoL postedAgo.data

/-- The `parseMetrics` method: first counter widget text is the view
count, second (when present) the favorite count, integer-parse
failures default to 0; the posted text is trimmed and both the
relative text and the derived absolute date are kept. -/
def parseMetrics (counterTexts : List String) (postedText : String) (now : ℤ) : AdMetrics :=
  let viewText := jsTrim (counterTexts.headD "")
  let favoriteText :=
    if counterTexts.length > 1 then jsTrim (counterTexts.getD 1 "") else "0"
  let postedAgo := jsTrim postedText
  { views := jsParseIntOr0 viewText
    favorites := jsParseIntOr0 favoriteText
    postedAgo := postedAgo
    postedDate := parsePostedDate postedAgo now }

/-- The `parseStatus` method: ads in the results are assumed active;
promotion flags mirror the presence of the promotion element. -/
def parseStatus (promotionPresent : Bool) : AdStatus :=
  { isActive := true, isPromoted := promotionPresent, hasPromotion := promotionPresent }

/-- Predicate of the description heuristic: a paragraph whose trimmed
text is longer than 20 characters and mentions neither `din` nor
`pre `. -/
def descPred (t : String) : Bool :=
  t.length > 20 && !(containsSeq ['d', 'i', 'n'] t.data) &&
    !(containsSeq ['p', 'r', 'e', ' '] t.data)

/-- Description extraction of `parseAdElement`: the trimmed text of the
first paragraph whose trimmed text passes `descPred` (empty when none
does, as the cheerio text of an empty selection is empty). -/
def extractDescription (paragraphTexts : List String) : String :=
  match paragraphTexts.find? (fun t => descPred (jsTrim t)) with
  | some t => jsTrim t
  | none => ""

/-! ### Ad record builder (`parseAdElement`) -/

/-- URL resolution of `parseAdElement`: hrefs that already start with
`http` pass through, anything else is concatenated onto the base URL. -/
def resolveUrl (baseUrl : String) (relativeUrl : String) : String :=
  if jsStartsWith "http" relativeUrl then relativeUrl else baseUrl ++ relativeUrl

/-- The `parseAdElement` method: extract every field from the container,
then reject (return `none`) when the trimmed title, the formatted
price or the resolved URL is empty; otherwise assemble the
`ParsedAd` with its derived fields, capture time `now`. -/
def parseAdElement (baseUrl : String) (now : ℤ) (c : AdContainer) : Option ParsedAd :=
  let sectionId := jsOrEmpty [c.idAttr]
  let scrolled := c.dataScrolled = some "true"
  let title := jsTrim c.titleText
  let relativeUrl := jsOrEmpty [c.oglasHref]
  let url := resolveUrl baseUrl relativeUrl
  let priceText := jsTrim c.priceText
  let price := parsePrice priceText
  let locationText := jsTrim c.locationText
  let location := parseLocation locationText
  let description := extractDescription c.paragraphTexts
  let images := parseImages c.firstImg
  let seller := parseSeller c.kpStore
  let metrics := parseMetrics c.counterTexts c.postedText now
  let status := parseStatus c.promotionPresent
  let metadata : AdMetadata :=
    { sectionId := sectionId
      classes := (splitSpace (jsOrEmpty [c.classAttr]).data).map String.mk
      scrolled := scrolled
      category := "konzole-i-igrice"
      subcategory := "sony-playstation-igrice" }
  if title = "" ∨ price.formatted = "" ∨ url = "" then none
  else
    some
      { raw :=
          { id := sectionId, title := title, price := price
            location := location, description := description
            images := images, url := url, seller := seller
            metrics := metrics, status := status, metadata := metadata }
        parsed :=
          { priceNumeric := price.amount
            postedDaysAgo := extractDaysAgo metrics.postedAgo
            imageUrls := images.map (fun img => img.url)
            isValidAd := true }
        scrapingMetadata :=
          { scrapedAt := now, sourceUrl := url
            parsingSuccess := true, parsingErrors := [] } }

/-! ### Page parser (`parseHtmlFile`)

The per-container loop wraps each `parseAdElement` call in a
`try`/`catch`: a thrown exception becomes an `EXTRACTION_FAILED` error
tagged with the container index, a `null` result is silently skipped,
a non-null result is appended.  The loop is embedded over a list of
per-container outcomes (`Except` for the catch clause); within this
model `parseAdElement` itself is total, so the parser instantiates
every outcome with `Except.ok`. -/

/-- Outcome of one iteration of the container loop: the value of
`parseAdElement` or the caught exception text. -/
def ContainerOutcome : Type := Except String (Option ParsedAd)

/-- Ads collected by the container loop: non-null values in order. -/
def collectAds : List ContainerOutcome → List ParsedAd
  | [] => []
  | Except.ok (some ad) :: r => ad :: collectAds r
  | Except.ok none :: r => collectAds r
  | Except.error _ :: r => collectAds r

/-- Errors collected by the container loop, tagged with the container
index starting at `i`. -/
def collectErrors (i : ℕ) : List ContainerOutcome → List ParsingError
  | [] => []
  | Except.ok _ :: r => collectErrors (i + 1) r
  | Except.error e :: r =>
    { type := ErrorType.EXTRACTION_FAILED
      message := "Failed to parse ad at index " ++ toString i ++ ": " ++ e
      adIndex := some i } :: collectErrors (i + 1) r

/-- The `parseHtmlFile` method.  Reading and loading the HTML may throw
(`Except.error`), which produces the total-failure result: no ads, a
single top-level error, zeroed statistics, `success := false`.  On a
readable document every container is processed by the loop and the
statistics are computed from the final counts.  `now` is the capture
clock, `elapsedMs` the measured wall time of the run. -/
def parseHtmlFile (baseUrl : String) (input : Except String HtmlDoc)
    (now elapsedMs : ℤ) : HtmlParsingResult :=
  match input with
  | Except.error e =>
    { success := false
      extractedAds := []
      errors :=
        [{ type := ErrorType.EXTRACTION_FAILED
           message := "Failed to parse HTML file: " ++ e
           adIndex := none }]
      warnings := []
      stats :=
        { totalAdsFound := 0, successfullyParsed := 0, failedToParse := 0
          parsingTimeMs := elapsedMs, htmlSizeKb := 0 } }
  | Except.ok doc =>
    let outcomes : List ContainerOutcome :=
      doc.containers.map (fun c => Except.ok (parseAdElement baseUrl now c))
    let extractedAds := collectAds outcomes
    let errors := collectErrors 0 outcomes
    { success := errors.length = 0
      extractedAds := extractedAds
      errors := errors
      warnings := []
      stats :=
        { totalAdsFound := doc.containers.length
          successfullyParsed := extractedAds.length
          failedToParse := errors.length
          parsingTimeMs := elapsedMs
          htmlSizeKb := (doc.rawLength + 512) / 1024 } }

/-! ### Output sort (`saveAdsToJson`)

`saveAdsToJson` sorts a copy of the ad list with the comparator
`(a, b) => dateB.getTime() - dateA.getTime()` where a missing
`postedDate` falls back to `new Date(0)`, the Unix epoch.  JavaScript
`Array.prototype.sort` is stable, so the result is the unique list
sorted by descending key with input order breaking ties; the embedding
sorts the index-tagged list by that total order. -/

/-- Sort key of one ad: its posted date, with the epoch fallback
`new Date(0)` for missing dates. -/
def sortKey (a : ParsedAd) : ℤ :=
  (a.raw.metrics.postedDate).getD 0

/-- The stable descending comparator order on index-tagged ads:
strictly newer first, ties broken by input position. -/
def newestFirst (x y : ℕ × ParsedAd) : Prop :=
  sortKey y.2 < sortKey x.2 ∨ (sortKey x.2 = sortKey y.2 ∧ x.1 ≤ y.1)

instance : DecidableRel newestFirst := fun x y => by
  unfold newestFirst; infer_instance

instance : IsTotal (ℕ × ParsedAd) newestFirst where
  total x y := by
    unfold newestFirst
    rcases lt_trichotomy (sortKey x.2) (sortKey y.2) with h | h | h
    · exact Or.inr (Or.inl h)
    · rcases Nat.le_total x.1 y.1 with hi | hi
      · exact Or.inl (Or.inr ⟨h, hi⟩)
      · exact Or.inr (Or.inr ⟨h.symm, hi⟩)
    · exact Or.inl (Or.inl h)

instance : IsTrans (ℕ × ParsedAd) newestFirst where
  trans x y z hxy hyz := by
    unfold newestFirst at *
    rcases hxy with h1 | ⟨h1, i1⟩ <;> rcases hyz with h2 | ⟨h2, i2⟩
    · exact Or.inl (h2.trans h1)
    · exact Or.inl (h2 ▸ h1)
    · exact Or.inl (h1 ▸ h2)
    · exact Or.inr ⟨h1.trans h2, i1.trans i2⟩

/-- The sorted view `[...ads].sort(...)` produced by `saveAdsToJson`:
stable sort of the ads, newest first. -/
def jsSortAds (ads : List ParsedAd) : List ParsedAd :=
  (List.insertionSort newestFirst ads.enum).map Prod.snd

/-! ### Declarative regex specifications

The claims speak of inputs that match or fail to match the source
patterns.  The following predicates state pattern membership
declaratively, as the existence of a decomposition of the text, so
that the theorems relate the operational scan of the embedding to an
independent description of the regular expression. -/

/-- Two character lists equal up to the `i` regex flag. -/
def CaselessEq (a b : List Char) : Prop :=
  a.map caseFold = b.map caseFold

/-- A nonempty run of `\s` characters. -/
def IsWsRun (w : List Char) : Prop :=
  w ≠ [] ∧ ∀ c ∈ w, isWsB c = true

/-- A nonempty run of `\d` characters. -/
def IsDigitRun (d : List Char) : Prop :=
  d ≠ [] ∧ ∀ c ∈ d, isDigitB c = true

/-- Membership of the day regex `/pre\s+(\d+)\s+dan/i`: the text
contains, somewhere, `pre`, whitespace, digits, whitespace and `dan`,
case-insensitively. -/
def HasDayPattern (l : List Char) : Prop :=
  ∃ a p w1 d w2 n b, l = a ++ p ++ w1 ++ d ++ w2 ++ n ++ b ∧
    CaselessEq p preChars ∧ IsWsRun w1 ∧ IsDigitRun d ∧ IsWsRun w2 ∧
    CaselessEq n danChars

/-- Membership of the posted-time regex
`/pre\s+(\d+)\s+(dan|dana|sat|sati|minut|minuta)/i`. -/
def HasTimePattern (l : List Char) : Prop :=
  ∃ a p w1 d w2 u b, l = a ++ p ++ w1 ++ d ++ w2 ++ u ++ b ∧
    CaselessEq p preChars ∧ IsWsRun w1 ∧ IsDigitRun d ∧ IsWsRun w2 ∧
    ∃ t ∈ unitTokens, CaselessEq u t

/-! ### Lemmas about character runs -/

theorem digit_not_ws {c : Char} (h : isDigitB c = true) : isWsB c = false := by
  simp only [isDigitB, Bool.and_eq_true, decide_eq_true_eq] at h
  obtain ⟨h1, h2⟩ := h
  simp only [Char.le_def] at h1 h2
  simp only [isWsB, Bool.or_eq_false_iff, decide_eq_false_iff_not]
  refine ⟨⟨⟨⟨⟨⟨⟨⟨⟨?_, ?_⟩, ?_⟩, ?_⟩, ?_⟩, ?_⟩, ?_⟩, ?_⟩, ?_⟩, ?_⟩ <;>
    · intro hc
      subst hc
      simp_all

theorem caseFold_of_digit {c : Char} (h : isDigitB c = true) : caseFold c = c := by
  simp only [isDigitB, Bool.and_eq_true, decide_eq_true_eq] at h
  unfold caseFold
  split
  · rename_i hAZ
    simp only [Bool.and_eq_true, decide_eq_true_eq] at hAZ
    exact absurd (le_trans hAZ.1 h.2) (by decide)
  · split
    · rename_i hA
      rw [hA] at h
      exact absurd h.2 (by decide)
    · rfl

theorem extractDaysAgo_mk (l : List Char) :
    extractDaysAgo (String.mk l) = extractDaysAgoL l := rfl

theorem parsePostedDate_mk (l : List Char) (now : ℤ) :
    parsePostedDate (String.mk l) now = parsePostedDateL l now := rfl

theorem takeWhile_append_of {p : Char → Bool} {d r : List Char}
    (hd : ∀ c ∈ d, p c = true) (hr : ∀ x, r.head? = some x → p x = false) :
    (d ++ r).takeWhile p = d := by
  induction d with
  | nil =>
    simp only [List.nil_append]
    cases r with
    | nil => rfl
    | cons x xs => simp [List.takeWhile_cons, hr x rfl]
  | cons c cs ih =>
    simp only [List.cons_append, List.takeWhile_cons, hd c (List.mem_cons_self c cs)]
    simp [ih (fun x hx => hd x (List.mem_cons_of_mem c hx))]

theorem dropWhile_append_of {p : Char → Bool} {d r : List Char}
    (hd : ∀ c ∈ d, p c = true) (hr : ∀ x, r.head? = some x → p x = false) :
    (d ++ r).dropWhile p = r := by
  induction d with
  | nil =>
    simp only [List.nil_append]
    cases r with
    | nil => rfl
    | cons x xs => simp [List.dropWhile_cons, hr x rfl]
  | cons c cs ih =>
    simp only [List.cons_append, List.dropWhile_cons, hd c (List.mem_cons_self c cs)]
    exact ih (fun x hx => hd x (List.mem_cons_of_mem c hx))

/-! ### Soundness of the scans: a successful match yields a
decomposition witnessing the declarative pattern -/

theorem cfPrefix_caselessEq {pat l : List Char} (h : cfPrefix pat l = true) :
    CaselessEq (l.take pat.length) pat := by
  simpa [cfPrefix, CaselessEq] using h

theorem spanChain_eq {l : List Char} :
    l = l.take preChars.length ++
      ((l.drop preChars.length).takeWhile isWsB ++
        (((l.drop preChars.length).dropWhile isWsB).takeWhile isDigitB ++
          ((((l.drop preChars.length).dropWhile isWsB).dropWhile isDigitB).takeWhile isWsB ++
            ((((l.drop preChars.length).dropWhile isWsB).dropWhile isDigitB).dropWhile isWsB)))) := by
  rw [List.takeWhile_append_dropWhile, List.takeWhile_append_dropWhile,
    List.takeWhile_append_dropWhile, List.take_append_drop]

theorem tryDayAt_decomp {l ds : List Char} (h : tryDayAt l = some ds) :
    HasDayPattern l := by
  unfold tryDayAt at h
  by_cases hpre : cfPrefix preChars l = true
  · rw [if_pos hpre] at h
    set r0 := l.drop preChars.length with hr0
    set w1 := r0.takeWhile isWsB with hw1
    set r1 := r0.dropWhile isWsB with hr1
    set d := r1.takeWhile isDigitB with hd
    set r2 := r1.dropWhile isDigitB with hr2
    set w2 := r2.takeWhile isWsB with hw2
    set r3 := r2.dropWhile isWsB with hr3
    by_cases hcond : w1 ≠ [] ∧ d ≠ [] ∧ w2 ≠ [] ∧ cfPrefix danChars r3 = true
    · obtain ⟨h1, h2, h3, h4⟩ := hcond
      rw [if_pos ⟨h1, h2, h3, h4⟩] at h
      obtain rfl : d = ds := by simpa using h
      refine ⟨[], l.take preChars.length, w1, d, w2,
        r3.take danChars.length, r3.drop danChars.length, ?_, ?_, ?_, ?_, ?_, ?_⟩
      · have hchain := spanChain_eq (l := l)
        rw [← hw1, ← hr1, ← hd, ← hr2, ← hw2] at hchain
        conv_lhs => rw [hchain]
        rw [← List.take_append_drop danChars.length r3]
        simp [List.append_assoc]
      · exact cfPrefix_caselessEq hpre
      · exact ⟨h1, fun c hc => List.mem_takeWhile_imp hc⟩
      · exact ⟨h2, fun c hc => List.mem_takeWhile_imp hc⟩
      · exact ⟨h3, fun c hc => List.mem_takeWhile_imp hc⟩
      · exact cfPrefix_caselessEq h4
    · rw [if_neg hcond] at h
      exact absurd h (by simp)
  · rw [if_neg hpre] at h
    exact absurd h (by simp)

theorem hasDayPattern_cons {c : Char} {l : List Char} (h : HasDayPattern l) :
    HasDayPattern (c :: l) := by
  obtain ⟨a, p, w1, d, w2, n, b, he, hp, h1, h2, h3, hn⟩ := h
  exact ⟨c :: a, p, w1, d, w2, n, b, by simp [he], hp, h1, h2, h3, hn⟩

theorem scanDay_decomp {l ds : List Char} (h : scanDay l = some ds) :
    HasDayPattern l := by
  induction l with
  | nil => simp [scanDay] at h
  | cons c r ih =>
    rw [scanDay] at h
    cases htry : tryDayAt (c :: r) with
    | some m =>
      rw [htry] at h
      exact tryDayAt_decomp htry
    | none =>
      rw [htry] at h
      exact hasDayPattern_cons (ih h)

theorem hasDayPattern_char_d {l : List Char} (h : HasDayPattern l) :
    ∃ c ∈ l, caseFold c = 'd' := by
  obtain ⟨a, p, w1, d, w2, n, b, he, _, _, _, _, hn⟩ := h
  have hmap : n.map caseFold = ['d', 'a', 'n'] := by
    have : danChars.map caseFold = ['d', 'a', 'n'] := by decide
    simpa [CaselessEq, this] using hn
  cases n with
  | nil => simp at hmap
  | cons c1 t =>
    refine ⟨c1, ?_, ?_⟩
    · rw [he]; simp
    · simpa using congrArg List.head? hmap

theorem tryPostedAt_decomp {l : List Char} {ds u : List Char}
    (h : tryPostedAt l = some (ds, u)) : HasTimePattern l := by
  unfold tryPostedAt at h
  by_cases hpre : cfPrefix preChars l = true
  · rw [if_pos hpre] at h
    set r0 := l.drop preChars.length with hr0
    set w1 := r0.takeWhile isWsB with hw1
    set r1 := r0.dropWhile isWsB with hr1
    set d := r1.takeWhile isDigitB with hd
    set r2 := r1.dropWhile isDigitB with hr2
    set w2 := r2.takeWhile isWsB with hw2
    set r3 := r2.dropWhile isWsB with hr3
    by_cases hcond : w1 ≠ [] ∧ d ≠ [] ∧ w2 ≠ []
    · obtain ⟨h1, h2, h3⟩ := hcond
      rw [if_pos ⟨h1, h2, h3⟩] at h
      cases hu : matchUnitAt r3 with
      | none => rw [hu] at h; exact absurd h (by simp)
      | some ut =>
        rw [hu] at h
        unfold matchUnitAt at hu
        cases hfind : unitTokens.find? (fun t => cfPrefix t r3) with
        | none => rw [hfind] at hu; exact absurd hu (by simp)
        | some t =>
          rw [hfind] at hu
          have htmem : t ∈ unitTokens := List.mem_of_find?_eq_some hfind
          have htpre : cfPrefix t r3 = true := by
            simpa using List.find?_some hfind
          refine ⟨[], l.take preChars.length, w1, d, w2,
            r3.take t.length, r3.drop t.length, ?_, ?_, ?_, ?_, ?_,
            t, htmem, cfPrefix_caselessEq htpre⟩
          · have hchain := spanChain_eq (l := l)
            rw [← hw1, ← hr1, ← hd, ← hr2, ← hw2] at hchain
            conv_lhs => rw [hchain]
            rw [← List.take_append_drop t.length r3]
            simp [List.append_assoc]
          · exact cfPrefix_caselessEq hpre
          · exact ⟨h1, fun c hc => List.mem_takeWhile_imp hc⟩
          · exact ⟨h2, fun c hc => List.mem_takeWhile_imp hc⟩
          · exact ⟨h3, fun c hc => List.mem_takeWhile_imp hc⟩
    · rw [if_neg hcond] at h
      exact absurd h (by simp)
  · rw [if_neg hpre] at h
    exact absurd h (by simp)

theorem hasTimePattern_cons {c : Char} {l : List Char} (h : HasTimePattern l) :
    HasTimePattern (c :: l) := by
  obtain ⟨a, p, w1, d, w2, u, b, he, hp, h1, h2, h3, hu⟩ := h
  exact ⟨c :: a, p, w1, d, w2, u, b, by simp [he], hp, h1, h2, h3, hu⟩

theorem scanPosted_decomp {l : List Char} {ds u : List Char}
    (h : scanPosted l = some (ds, u)) : HasTimePattern l := by
  induction l with
  | nil => simp [scanPosted] at h
  | cons c r ih =>
    rw [scanPosted] at h
    cases htry : tryPostedAt (c :: r) with
    | some m =>
      rw [htry] at h
      obtain rfl : m = (ds, u) := by simpa using h
      exact tryPostedAt_decomp htry
    | none =>
      rw [htry] at h
      exact hasTimePattern_cons (ih h)

theorem hasTimePattern_char_p {l : List Char} (h : HasTimePattern l) :
    ∃ c ∈ l, caseFold c = 'p' := by
  obtain ⟨a, p, w1, d, w2, u, b, he, hp, _, _, _, _⟩ := h
  have hmap : p.map caseFold = ['p', 'r', 'e'] := by
    have : preChars.map caseFold = ['p', 'r', 'e'] := by decide
    simpa [CaselessEq, this] using hp
  cases p with
  | nil => simp at hmap
  | cons c1 t =>
    refine ⟨c1, ?_, ?_⟩
    · rw [he]; simp
    · simpa using congrArg List.head? hmap

/-! ### Completeness on canonical inputs: evaluating the scans on
strings of the exact form the claims quantify over -/

theorem tryPostedAt_spine (ds rest : List Char) (h1 : ds ≠ [])
    (h2 : ∀ c ∈ ds, isDigitB c = true)
    (hrest : ∀ x, rest.head? = some x → isWsB x = false) :
    tryPostedAt ('p' :: 'r' :: 'e' :: ' ' :: (ds ++ ' ' :: rest)) =
      match matchUnitAt rest with
      | some u => some (ds, u)
      | none => none := by
  obtain ⟨d0, ds0, hds⟩ := List.exists_cons_of_ne_nil h1
  have hdhead : ∀ x, (ds ++ ' ' :: rest).head? = some x → isWsB x = false := by
    intro x hx
    rw [hds] at hx
    simp only [List.cons_append, List.head?_cons, Option.some.injEq] at hx
    exact hx ▸ digit_not_ws (h2 d0 (hds ▸ List.mem_cons_self d0 ds0))
  have hsphead : ∀ x, (' ' :: rest).head? = some x → isDigitB x = false := by
    intro x hx
    simp only [List.head?_cons, Option.some.injEq] at hx
    subst hx; decide
  have hl : ('p' :: 'r' :: 'e' :: ' ' :: (ds ++ ' ' :: rest)).drop preChars.length =
      [' '] ++ (ds ++ ' ' :: rest) := rfl
  have hw1 : ([' '] ++ (ds ++ ' ' :: rest)).takeWhile isWsB = [' '] :=
    takeWhile_append_of (by decide) hdhead
  have hr1 : ([' '] ++ (ds ++ ' ' :: rest)).dropWhile isWsB = ds ++ ' ' :: rest :=
    dropWhile_append_of (by decide) hdhead
  have hdtake : (ds ++ ' ' :: rest).takeWhile isDigitB = ds :=
    takeWhile_append_of h2 hsphead
  have hdrop : (ds ++ ' ' :: rest).dropWhile isDigitB = ' ' :: rest :=
    dropWhile_append_of h2 hsphead
  have hw2 : (' ' :: rest).takeWhile isWsB = [' '] := by
    have : ([' '] ++ rest).takeWhile isWsB = [' '] :=
      takeWhile_append_of (by decide) hrest
    simpa using this
  have hr3 : (' ' :: rest).dropWhile isWsB = rest := by
    have : ([' '] ++ rest).dropWhile isWsB = rest :=
      dropWhile_append_of (by decide) hrest
    simpa using this
  have hpre : cfPrefix preChars ('p' :: 'r' :: 'e' :: ' ' :: (ds ++ ' ' :: rest)) = true := rfl
  unfold tryPostedAt
  rw [if_pos hpre, hl]
  simp only [hw1, hr1, hdtake, hdrop, hw2, hr3]
  rw [if_pos ⟨by simp, h1, by simp⟩]

theorem tryDayAt_spine (ds rest : List Char) (h1 : ds ≠ [])
    (h2 : ∀ c ∈ ds, isDigitB c = true)
    (hrest : ∀ x, rest.head? = some x → isWsB x = false)
    (hdan : cfPrefix danChars rest = true) :
    tryDayAt ('p' :: 'r' :: 'e' :: ' ' :: (ds ++ ' ' :: rest)) = some ds := by
  obtain ⟨d0, ds0, hds⟩ := List.exists_cons_of_ne_nil h1
  have hdhead : ∀ x, (ds ++ ' ' :: rest).head? = some x → isWsB x = false := by
    intro x hx
    rw [hds] at hx
    simp only [List.cons_append, List.head?_cons, Option.some.injEq] at hx
    exact hx ▸ digit_not_ws (h2 d0 (hds ▸ List.mem_cons_self d0 ds0))
  have hsphead : ∀ x, (' ' :: rest).head? = some x → isDigitB x = false := by
    intro x hx
    simp only [List.head?_cons, Option.some.injEq] at hx
    subst hx; decide
  have hl : ('p' :: 'r' :: 'e' :: ' ' :: (ds ++ ' ' :: rest)).drop preChars.length =
      [' '] ++ (ds ++ ' ' :: rest) := rfl
  have hw1 : ([' '] ++ (ds ++ ' ' :: rest)).takeWhile isWsB = [' '] :=
    takeWhile_append_of (by decide) hdhead
  have hr1 : ([' '] ++ (ds ++ ' ' :: rest)).dropWhile isWsB = ds ++ ' ' :: rest :=
    dropWhile_append_of (by decide) hdhead
  have hdtake : (ds ++ ' ' :: rest).takeWhile isDigitB = ds :=
    takeWhile_append_of h2 hsphead
  have hdrop : (ds ++ ' ' :: rest).dropWhile isDigitB = ' ' :: rest :=
    dropWhile_append_of h2 hsphead
  have hw2 : (' ' :: rest).takeWhile isWsB = [' '] := by
    have : ([' '] ++ rest).takeWhile isWsB = [' '] :=
      takeWhile_append_of (by decide) hrest
    simpa using this
  have hr3 : (' ' :: rest).dropWhile isWsB = rest := by
    have : ([' '] ++ rest).dropWhile isWsB = rest :=
      dropWhile_append_of (by decide) hrest
    simpa using this
  have hpre : cfPrefix preChars ('p' :: 'r' :: 'e' :: ' ' :: (ds ++ ' ' :: rest)) = true := rfl
  unfold tryDayAt
  rw [if_pos hpre, hl]
  simp only [hw1, hr1, hdtake, hdrop, hw2, hr3]
  rw [if_pos ⟨by simp, h1, by simp, hdan⟩]

theorem scanDay_pre (ds rest : List Char) (h1 : ds ≠ [])
    (h2 : ∀ c ∈ ds, isDigitB c = true)
    (hrest : ∀ x, rest.head? = some x → isWsB x = false)
    (hdan : cfPrefix danChars rest = true) :
    scanDay ('p' :: 'r' :: 'e' :: ' ' :: (ds ++ ' ' :: rest)) = some ds := by
  rw [scanDay, tryDayAt_spine ds rest h1 h2 hrest hdan]

theorem scanPosted_pre (ds rest u : List Char) (h1 : ds ≠ [])
    (h2 : ∀ c ∈ ds, isDigitB c = true)
    (hrest : ∀ x, rest.head? = some x → isWsB x = false)
    (hu : matchUnitAt rest = some u) :
    scanPosted ('p' :: 'r' :: 'e' :: ' ' :: (ds ++ ' ' :: rest)) = some (ds, u) := by
  rw [scanPosted, tryPostedAt_spine ds rest h1 h2 hrest, hu]

/-! ### Lemmas about the container loop -/

theorem collectAds_map_ok (f : AdContainer → Option ParsedAd) (l : List AdContainer) :
    collectAds (l.map (fun c => Except.ok (f c))) = l.filterMap f := by
  induction l with
  | nil => rfl
  | cons c r ih =>
    cases hf : f c with
    | none => simp [collectAds, hf, ih, List.filterMap_cons]
    | some a => simp [collectAds, hf, ih, List.filterMap_cons]

theorem collectErrors_map_ok (f : AdContainer → Option ParsedAd)
    (l : List AdContainer) (i : ℕ) :
    collectErrors i (l.map (fun c => Except.ok (f c))) = [] := by
  induction l generalizing i with
  | nil => rfl
  | cons c r ih => simp [collectErrors, ih]

theorem collect_counts_le (l : List ContainerOutcome) (i : ℕ) :
    (collectAds l).length + (collectErrors i l).length ≤ l.length := by
  induction l generalizing i with
  | nil => simp [collectAds, collectErrors]
  | cons o r ih =>
    cases o with
    | error e =>
      have := ih (i + 1)
      simp only [collectAds, collectErrors, List.length_cons]
      omega
    | ok v =>
      cases v with
      | none =>
        have := ih (i + 1)
        simp only [collectAds, collectErrors, List.length_cons]
        omega
      | some a =>
        have := ih (i + 1)
        simp only [collectAds, collectErrors, List.length_cons]
        omega

theorem collect_counts_lt (l : List ContainerOutcome) (i : ℕ)
    (h : Except.ok (none : Option ParsedAd) ∈ l) :
    (collectAds l).length + (collectErrors i l).length < l.length := by
  induction l generalizing i with
  | nil => simp at h
  | cons o r ih =>
    rcases List.mem_cons.mp h with rfl | hmem
    · have := collect_counts_le r (i + 1)
      simp only [collectAds, collectErrors, List.length_cons]
      omega
    · cases o with
      | error e =>
        have := ih (i + 1) hmem
        simp only [collectAds, collectErrors, List.length_cons]
        omega
      | ok v =>
        cases v with
        | none =>
          have := collect_counts_le r (i + 1)
          simp only [collectAds, collectErrors, List.length_cons]
          omega
        | some a =>
          have := ih (i + 1) hmem
          simp only [collectAds, collectErrors, List.length_cons]
          omega

/-! ### Lemmas about the stable sort -/

theorem enum_pairwise_fst_lt (l : List ParsedAd) :
    l.enum.Pairwise (fun x y => x.1 < y.1) := by
  have h := List.pairwise_lt_range' 0 l.length 1
  rw [← List.enumFrom_map_fst 0 l, List.pairwise_map] at h
  exact h

theorem insertionSort_enum_pairwise_ne (l : List ParsedAd) :
    (List.insertionSort newestFirst l.enum).Pairwise (fun x y => x.1 ≠ y.1) := by
  have hperm : List.Perm (List.insertionSort newestFirst l.enum) l.enum :=
    List.perm_insertionSort newestFirst l.enum
  have hne : l.enum.Pairwise (fun x y => x.1 ≠ y.1) :=
    (enum_pairwise_fst_lt l).imp (fun h => Nat.ne_of_lt h)
  exact (hperm.pairwise_iff (fun h => h.symm)).mpr hne

/-! ### Concrete fixtures used by the claim theorems -/

/-- The production base URL of the scraper. -/
def kpBaseUrl : String := "https://www.kupujemprodajem.com"

/-- The container of the specification scenario: title `PS5 Bundle`,
price text `12.500 din`, location `Beograd`, posted `pre 3 dana`. -/
def c4container : AdContainer :=
  { idAttr := some "ad-12345"
    dataScrolled := none
    classAttr := some "AdItem_adOuterHolder__abc"
    titleText := "PS5 Bundle"
    oglasHref := some "/oglas/12345/ps5-bundle"
    priceText := "12.500 din"
    locationText := "Beograd"
    paragraphTexts := []
    firstImg := none
    kpStore := none
    counterTexts := []
    postedText := "pre 3 dana"
    promotionPresent := false }

theorem parsePrice_12500din : parsePrice (jsTrim "12.500 din") =
    { amount := 25 / 2, currency := "RSD", formatted := "12.500 din" } := by
  have h0 : jsTrim "12.500 din" = "12.500 din" := by decide
  rw [h0]
  have hs : scanPrice (cleanChars "12.500 din".data) =
      some (['1', '2'], some ['5', '0', '0'], ['d', 'i', 'n']) := by decide
  have h1 : digitsToNat ['1', '2'] = 12 := by decide
  have h2 : digitsToNat ['5', '0', '0'] = 500 := by decide
  simp only [parsePrice, hs, numeralValue, h1, h2, AdPrice.mk.injEq]
  refine ⟨by norm_num, by decide, by decide⟩

/-! ### The claims -/

/-- C1.  The claim states that `€` is among the accepted currency
tokens of the price extractor.  The code disagrees: the source regex
carries the mojibake sequence `â‚¬` (U+00E2 U+201A U+00AC) in place of
the euro sign, so the genuine euro input `100 €` falls into the
no-match branch (amount 0, currency `RSD`) even though the claim
requires amount 100; the mojibake spelling `100 â‚¬`, by contrast, is
matched and produces the upper-cased mojibake currency `Â‚¬`.  This
theorem evaluates the embedded `parsePrice` at both inputs,
documenting the code bug. -/
theorem C1_price_euro_mojibake :
    parsePrice "100 €" = { amount := 0, currency := "RSD", formatted := "100 €" }
    ∧ parsePrice "100 â‚¬" =
      { amount := 100, currency := "Â‚¬", formatted := "100 â‚¬" }
    ∧ (100 : ℚ) ≠ 0 := by
  refine ⟨by decide, by decide, by norm_num⟩

/-- C2.  The ad record builder returns `null` exactly when the
extracted title, the formatted price or the resolved URL is empty, and
URL resolution passes `http`-prefixed hrefs through unchanged while
joining all others onto the base URL. -/
theorem C2_builder_reject_iff (b : String) (now : ℤ) (c : AdContainer) :
    (parseAdElement b now c = none ↔
      (jsTrim c.titleText = "" ∨ (parsePrice (jsTrim c.priceText)).formatted = "" ∨
        resolveUrl b (jsOrEmpty [c.oglasHref]) = ""))
    ∧ ∀ href : String,
        resolveUrl b href = if jsStartsWith "http" href then href else b ++ href := by
  constructor
  · by_cases h : (jsTrim c.titleText = "" ∨ (parsePrice (jsTrim c.priceText)).formatted = "" ∨
        resolveUrl b (jsOrEmpty [c.oglasHref]) = "")
    · simp only [parseAdElement]
      rw [if_pos h]
      exact iff_of_true rfl h
    · simp only [parseAdElement]
      rw [if_neg h]
      exact iff_of_false (by simp) h
  · intro href
    rfl

/-- C3.  The page parser is a total function: it returns an
`HtmlParsingResult` for every input.  When the HTML cannot be read at
all (the `Except.error` input, the catch branch of the source), the
result has no extracted ads, exactly one top-level error, zeroed
counts, the best-effort elapsed time and `success = false`; on every
readable document the container count is reported in
`totalAdsFound`. -/
theorem C3_total_failure (b e : String) (now elapsedMs : ℤ) :
    parseHtmlFile b (Except.error e) now elapsedMs =
      { success := false
        extractedAds := []
        errors :=
          [{ type := ErrorType.EXTRACTION_FAILED
             message := "Failed to parse HTML file: " ++ e
             adIndex := none }]
        warnings := []
        stats :=
          { totalAdsFound := 0, successfullyParsed := 0, failedToParse := 0
            parsingTimeMs := elapsedMs, htmlSizeKb := 0 } }
    ∧ ∀ (doc : HtmlDoc) (now2 el2 : ℤ),
        (parseHtmlFile b (Except.ok doc) now2 el2).stats.totalAdsFound =
          doc.containers.length := by
  refine ⟨rfl, fun doc n2 e2 => by simp [parseHtmlFile]⟩

/-- Millisecond duration of one posted-time unit, as named by the
specification (day, hour, minute vocabulary of the source locale). -/
def unitMs (u : String) : ℤ :=
  if u = "dan" ∨ u = "dana" then 24 * 60 * 60 * 1000
  else if u = "sat" ∨ u = "sati" then 60 * 60 * 1000
  else 60 * 1000

/-- C5.  The days-ago extractor returns `N` on `pre N dana`, 0 on
`pre N sati` and `pre N minuta` (the documented legacy asymmetry), and
0 on every string not containing the day pattern
`/pre\s+(\d+)\s+dan/i`. -/
theorem C5_days_ago (ds : List Char) (s : String)
    (h1 : ds ≠ []) (h2 : ∀ c ∈ ds, isDigitB c = true)
    (h3 : ¬ HasDayPattern s.data) :
    extractDaysAgo (String.mk ("pre ".data ++ ds ++ " dana".data)) = digitsToNat ds
    ∧ extractDaysAgo (String.mk ("pre ".data ++ ds ++ " sati".data)) = 0
    ∧ extractDaysAgo (String.mk ("pre ".data ++ ds ++ " minuta".data)) = 0
    ∧ extractDaysAgo s = 0 := by
  have hdigit_d : ∀ c ∈ ds, caseFold c ≠ 'd' := by
    intro c hc hd
    rw [caseFold_of_digit (h2 c hc)] at hd
    subst hd
    exact absurd (h2 'd' hc) (by decide)
  refine ⟨?_, ?_, ?_, ?_⟩
  · have hh : scanDay ("pre ".data ++ ds ++ " dana".data) = some ds :=
      scanDay_pre ds ('d' :: 'a' :: 'n' :: 'a' :: []) h1 h2
        (by intro x hx; simp only [List.head?_cons, Option.some.injEq] at hx
            subst hx; decide)
        (by decide)
    rw [extractDaysAgo_mk]
    unfold extractDaysAgoL
    rw [hh]
  · rw [extractDaysAgo_mk]
    unfold extractDaysAgoL
    cases hscan : scanDay ("pre ".data ++ ds ++ " sati".data) with
    | none => rfl
    | some m =>
      exfalso
      have hpat := scanDay_decomp hscan
      obtain ⟨c, hc, hcd⟩ := hasDayPattern_char_d hpat
      simp only [List.mem_append] at hc
      rcases hc with (hc | hc) | hc
      · revert hcd; simp at hc; rcases hc with rfl | rfl | rfl | rfl <;> decide
      · exact hdigit_d c hc hcd
      · revert hcd; simp at hc; rcases hc with rfl | rfl | rfl | rfl | rfl <;> decide
  · rw [extractDaysAgo_mk]
    unfold extractDaysAgoL
    cases hscan : scanDay ("pre ".data ++ ds ++ " minuta".data) with
    | none => rfl
    | some m =>
      exfalso
      have hpat := scanDay_decomp hscan
      obtain ⟨c, hc, hcd⟩ := hasDayPattern_char_d hpat
      simp only [List.mem_append] at hc
      rcases hc with (hc | hc) | hc
      · revert hcd; simp at hc; rcases hc with rfl | rfl | rfl | rfl <;> decide
      · exact hdigit_d c hc hcd
      · revert hcd; simp at hc
        rcases hc with rfl | rfl | rfl | rfl | rfl | rfl | rfl <;> decide
  · unfold extractDaysAgo extractDaysAgoL
    cases hscan : scanDay s.data with
    | none => rfl
    | some m => exact absurd (scanDay_decomp hscan) h3

/-- Witness for C5 at `N = 3` and the non-matching string `hello`. -/
theorem C5_days_ago_witness :
    extractDaysAgo "pre 3 dana" = 3 ∧ extractDaysAgo "pre 3 sati" = 0 ∧
    extractDaysAgo "pre 3 minuta" = 0 ∧ extractDaysAgo "hello" = 0 :=
  C5_days_ago ['3'] "hello" (by decide) (by decide)
    (fun h => absurd (hasDayPattern_char_d h) (by decide))

/-- C6.  The relative-time extractor maps `pre N u` for every unit `u`
of the source vocabulary to the capture time minus `N` times the unit
duration, and leaves the timestamp undefined (`none`, neither zero nor
the capture time) on every string not containing the pattern. -/
theorem C6_posted_date (ds : List Char) (u : String) (s2 : String) (now : ℤ)
    (h1 : ds ≠ []) (h2 : ∀ c ∈ ds, isDigitB c = true)
    (hu : u ∈ ["dan", "dana", "sat", "sati", "minut", "minuta"])
    (h3 : ¬ HasTimePattern s2.data) :
    parsePostedDate (String.mk ("pre ".data ++ ds ++ (' ' :: u.data))) now =
      some (now - (digitsToNat ds : ℤ) * unitMs u)
    ∧ parsePostedDate s2 now = none := by
  constructor
  · simp only [List.mem_cons, List.not_mem_nil, or_false] at hu
    rcases hu with rfl | rfl | rfl | rfl | rfl | rfl
    · have hh : scanPosted ("pre ".data ++ ds ++ (' ' :: "dan".data)) =
          some (ds, ['d', 'a', 'n']) :=
        scanPosted_pre ds "dan".data ['d', 'a', 'n'] h1 h2
          (by intro x hx; simp only [List.head?_cons, Option.some.injEq] at hx
              subst hx; decide)
          (by decide)
      rw [parsePostedDate_mk]
      unfold parsePostedDateL
      rw [hh]
      rfl
    · have hh : scanPosted ("pre ".data ++ ds ++ (' ' :: "dana".data)) =
          some (ds, ['d', 'a', 'n']) :=
        scanPosted_pre ds "dana".data ['d', 'a', 'n'] h1 h2
          (by intro x hx; simp only [List.head?_cons, Option.some.injEq] at hx
              subst hx; decide)
          (by decide)
      rw [parsePostedDate_mk]
      unfold parsePostedDateL
      rw [hh]
      rfl
    · have hh : scanPosted ("pre ".data ++ ds ++ (' ' :: "sat".data)) =
          some (ds, ['s', 'a', 't']) :=
        scanPosted_pre ds "sat".data ['s', 'a', 't'] h1 h2
          (by intro x hx; simp only [List.head?_cons, Option.some.injEq] at hx
              subst hx; decide)
          (by decide)
      rw [parsePostedDate_mk]
      unfold parsePostedDateL
      rw [hh]
      rfl
    · have hh : scanPosted ("pre ".data ++ ds ++ (' ' :: "sati".data)) =
          some (ds, ['s', 'a', 't']) :=
        scanPosted_pre ds "sati".data ['s', 'a', 't'] h1 h2
          (by intro x hx; simp only [List.head?_cons, Option.some.injEq] at hx
              subst hx; decide)
          (by decide)
      rw [parsePostedDate_mk]
      unfold parsePostedDateL
      rw [hh]
      rfl
    · have hh : scanPosted ("pre ".data ++ ds ++ (' ' :: "minut".data)) =
          some (ds, ['m', 'i', 'n', 'u', 't']) :=
        scanPosted_pre ds "minut".data ['m', 'i', 'n', 'u', 't'] h1 h2
          (by intro x hx; simp only [List.head?_cons, Option.some.injEq] at hx
              subst hx; decide)
          (by decide)
      rw [parsePostedDate_mk]
      unfold parsePostedDateL
      rw [hh]
      rfl
    · have hh : scanPosted ("pre ".data ++ ds ++ (' ' :: "minuta".data)) =
          some (ds, ['m', 'i', 'n', 'u', 't']) :=
        scanPosted_pre ds "minuta".data ['m', 'i', 'n', 'u', 't'] h1 h2
          (by intro x hx; simp only [List.head?_cons, Option.some.injEq] at hx
              subst hx; decide)
          (by decide)
      rw [parsePostedDate_mk]
      unfold parsePostedDateL
      rw [hh]
      rfl
  · unfold parsePostedDate parsePostedDateL
    cases hscan : scanPosted s2.data with
    | none => rfl
    | some m =>
      exfalso
      have hm : scanPosted s2.data = some (m.1, m.2) := by rw [hscan]
      exact absurd (scanPosted_decomp hm) h3

/-- Witness for C6 at `pre 2 sati`, capture time 5, and the
non-matching string `hello`. -/
theorem C6_posted_date_witness :
    parsePostedDate "pre 2 sati" 5 = some (5 - 2 * (60 * 60 * 1000)) ∧
    parsePostedDate "hello" 5 = none :=
  C6_posted_date ['2'] "sati" "hello" 5 (by decide) (by decide) (by decide)
    (fun h => absurd (hasTimePattern_char_p h) (by decide))

/-- C4.  The specification scenario expects `amount = 12500` for the
price text `12.500 din`, reading the dot as the Serbian thousands
separator.  The code parses the captured numeral with `parseFloat`,
which reads the dot as a decimal point, so the resulting
`priceNumeric` is 12.5, not 12500; currency, days-ago and validity
behave as claimed.  This theorem evaluates the embedded builder on the
scenario container, documenting the code bug. -/
theorem C4_scenario_behavior :
    (parseAdElement kpBaseUrl 0 c4container).map
        (fun a => (a.raw.price.currency, a.parsed.postedDaysAgo, a.parsed.isValidAd)) =
      some ("RSD", 3, true)
    ∧ (parseAdElement kpBaseUrl 0 c4container).map
        (fun a => a.parsed.priceNumeric) = some ((25 : ℚ) / 2)
    ∧ ((25 : ℚ) / 2 ≠ (12500 : ℚ)) := by
  refine ⟨by decide, ?_, by norm_num⟩
  simp only [parseAdElement, c4container, parsePrice_12500din]
  rw [if_neg (by decide)]
  simp

/-- A minimal valid parsed ad carrying a given posted date, used by the
sorting counterexample. -/
def mkTestAd (pd : Option ℤ) (tag : String) : ParsedAd :=
  { raw :=
      { id := tag, title := tag
        price := { amount := 0, currency := "RSD", formatted := "1 din" }
        location := { name := "X", hasDelivery := false }
        description := "", images := [], url := "u"
        seller := { name := none, hasKpStore := false, storeUrl := none, storeId := none }
        metrics := { views := 0, favorites := 0, postedAgo := "", postedDate := pd }
        status := { isActive := true, isPromoted := false, hasPromotion := false }
        metadata :=
          { sectionId := tag, classes := [], scrolled := false
            category := "c", subcategory := "s" } }
    parsed := { priceNumeric := 0, postedDaysAgo := 0, imageUrls := [], isValidAd := true }
    scrapingMetadata :=
      { scrapedAt := 0, sourceUrl := "u", parsingSuccess := true, parsingErrors := [] } }

/-- C7 counterexample.  The claim says ads without a resolvable
`postedDate` sort as if their date were the earliest possible instant
and sink to the end.  The code substitutes the Unix epoch
(`new Date(0)`), which is not the earliest possible instant: an ad
dated one millisecond before the epoch sorts after the undated ad, so
the undated ad heads the list instead of sinking to the end. -/
theorem C7_cex :
    jsSortAds [mkTestAd (some (-1)) "dated", mkTestAd none "undated"] =
      [mkTestAd none "undated", mkTestAd (some (-1)) "dated"]
    ∧ (mkTestAd none "undated").raw.metrics.postedDate = none
    ∧ (mkTestAd (some (-1)) "dated").raw.metrics.postedDate = some (-1) := by
  refine ⟨by decide, rfl, rfl⟩

/-- C7 as amended.  The sort of `saveAdsToJson` produces a new list
that is a permutation of the input (the input itself is never
mutated), ordered by descending sort key, where the key of an ad
without a resolvable `postedDate` is the Unix epoch (0) rather than
the earliest possible instant; the sort is stable: on equal keys the
input order (the `enum` index) is preserved. -/
theorem C7_sorted_stable_amended (ads : List ParsedAd) :
    List.Perm (jsSortAds ads) ads
    ∧ (jsSortAds ads).Pairwise (fun x y => sortKey y ≤ sortKey x)
    ∧ (List.insertionSort newestFirst ads.enum).Pairwise
        (fun x y => sortKey y.2 < sortKey x.2 ∨ (sortKey x.2 = sortKey y.2 ∧ x.1 < y.1))
    ∧ ∀ a ∈ ads, a.raw.metrics.postedDate = none → sortKey a = 0 := by
  refine ⟨?_, ?_, ?_, ?_⟩
  · have h1 := (List.perm_insertionSort newestFirst ads.enum).map Prod.snd
    rw [List.enum_map_snd] at h1
    exact h1
  · have hs : (List.insertionSort newestFirst ads.enum).Pairwise newestFirst :=
      List.sorted_insertionSort newestFirst ads.enum
    unfold jsSortAds
    rw [List.pairwise_map]
    refine hs.imp ?_
    intro x y hxy
    rcases hxy with h | ⟨h, _⟩
    · exact le_of_lt h
    · exact le_of_eq h.symm
  · have hs : (List.insertionSort newestFirst ads.enum).Pairwise newestFirst :=
      List.sorted_insertionSort newestFirst ads.enum
    have hne := insertionSort_enum_pairwise_ne ads
    refine (hs.and hne).imp ?_
    intro x y hxy
    rcases hxy with ⟨h | ⟨hk, hi⟩, hne2⟩
    · exact Or.inl h
    · exact Or.inr ⟨hk, lt_of_le_of_ne hi hne2⟩
  · intro a _ h
    simp [sortKey, h]

/-- C8 counterexample.  A page whose only container lacks a title is
rejected by the builder, but `failedToParse` counts only thrown
exceptions, so it stays equal to the run with the title present (both
zero) instead of being one greater as the claim states. -/
theorem C8_cex :
    ¬ ((parseHtmlFile kpBaseUrl
          (Except.ok ⟨[{ c4container with titleText := "" }], 0⟩) 0 0).stats.failedToParse =
        (parseHtmlFile kpBaseUrl
          (Except.ok ⟨[c4container], 0⟩) 0 0).stats.failedToParse + 1)
    ∧ parseAdElement kpBaseUrl 0 { c4container with titleText := "" } = none
    ∧ parseAdElement kpBaseUrl 0 c4container ≠ none := by
  refine ⟨by decide, by decide, by decide⟩

/-- C8 as amended.  Removing the title of a successfully parsed
container makes the builder reject that container; relative to the run
with the title present, the page statistics lose exactly one
`successfullyParsed` while `failedToParse` is unchanged (validation
rejection is not an extraction failure). -/
theorem C8_missing_title_amended (b : String) (now el : ℤ) (len : ℕ)
    (pre post : List AdContainer) (c : AdContainer)
    (h : parseAdElement b now c ≠ none) :
    parseAdElement b now { c with titleText := "" } = none
    ∧ (parseHtmlFile b (Except.ok ⟨pre ++ { c with titleText := "" } :: post, len⟩)
        now el).stats.failedToParse =
      (parseHtmlFile b (Except.ok ⟨pre ++ c :: post, len⟩) now el).stats.failedToParse
    ∧ (parseHtmlFile b (Except.ok ⟨pre ++ c :: post, len⟩) now el).stats.successfullyParsed =
      (parseHtmlFile b (Except.ok ⟨pre ++ { c with titleText := "" } :: post, len⟩)
        now el).stats.successfullyParsed + 1 := by
  have hnone : parseAdElement b now { c with titleText := "" } = none := by
    simp only [parseAdElement]
    rw [if_pos (Or.inl (show jsTrim "" = "" from rfl))]
  obtain ⟨a, ha⟩ := Option.ne_none_iff_exists.mp h
  refine ⟨hnone, ?_, ?_⟩
  · simp only [parseHtmlFile]
    rw [collectErrors_map_ok, collectErrors_map_ok]
  · simp only [parseHtmlFile]
    rw [collectAds_map_ok, collectAds_map_ok]
    rw [List.filterMap_append, List.filterMap_append]
    rw [List.filterMap_cons, List.filterMap_cons]
    rw [hnone, ← ha]
    simp only [List.length_append, List.length_cons]
    omega

/-- Witness for C8 as amended, at the scenario container. -/
theorem C8_missing_title_amended_witness :
    parseAdElement kpBaseUrl 0 { c4container with titleText := "" } = none
    ∧ (parseHtmlFile kpBaseUrl
        (Except.ok ⟨[{ c4container with titleText := "" }], 0⟩) 0 0).stats.failedToParse =
      (parseHtmlFile kpBaseUrl (Except.ok ⟨[c4container], 0⟩) 0 0).stats.failedToParse
    ∧ (parseHtmlFile kpBaseUrl (Except.ok ⟨[c4container], 0⟩) 0 0).stats.successfullyParsed =
      (parseHtmlFile kpBaseUrl
        (Except.ok ⟨[{ c4container with titleText := "" }], 0⟩) 0 0).stats.successfullyParsed + 1 :=
  C8_missing_title_amended kpBaseUrl 0 0 0 [] [] c4container (by decide)

/-- C9 counterexample.  Parsing the identical container twice at
different capture times yields different `postedDate` values inside
the raw ad record, so the runs are not byte-identical outside
`scrapedAt`: the posted date is derived from the capture clock. -/
theorem C9_cex :
    (parseAdElement kpBaseUrl 0 c4container).map
        (fun a => a.raw.metrics.postedDate) = some (some (-259200000))
    ∧ (parseAdElement kpBaseUrl 86400000 c4container).map
        (fun a => a.raw.metrics.postedDate) = some (some (-172800000))
    ∧ (some (some (-259200000 : ℤ)) : Option (Option ℤ)) ≠ some (some (-172800000)) := by
  refine ⟨by decide, by decide, by decide⟩

/-- Abstraction of the two clock-derived fields of a parsed ad: the
`scrapedAt` capture stamp and the derived `metrics.postedDate`. -/
def stripClock (a : ParsedAd) : ParsedAd :=
  { a with
    raw := { a.raw with metrics := { a.raw.metrics with postedDate := none } }
    scrapingMetadata := { a.scrapingMetadata with scrapedAt := 0 } }

/-- C9 as amended.  Re-parsing the identical container is
deterministic in every field except the two clock-derived ones:
stripping `scrapedAt` and `metrics.postedDate`, two runs at arbitrary
capture times agree exactly (in particular the rejection behaviour and
every other raw and derived field are identical). -/
theorem C9_deterministic_amended (b : String) (n1 n2 : ℤ) (c : AdContainer) :
    (parseAdElement b n1 c).map stripClock = (parseAdElement b n2 c).map stripClock := by
  by_cases h : (jsTrim c.titleText = "" ∨ (parsePrice (jsTrim c.priceText)).formatted = "" ∨
      resolveUrl b (jsOrEmpty [c.oglasHref]) = "")
  · simp only [parseAdElement]
    rw [if_pos h, if_pos h]
  · simp only [parseAdElement]
    rw [if_neg h, if_neg h]
    rfl

/-- C10.  For every readable page the statistics satisfy
`successfullyParsed + failedToParse ≤ totalAdsFound`, and the
inequality is strict as soon as one container is rejected by
validation: a rejected container counts in `totalAdsFound` but in
neither of the other two statistics, because `failedToParse` counts
only containers whose processing threw. -/
theorem C10_stats_inequality (b : String) (now el : ℤ) (doc : HtmlDoc)
    (c : AdContainer) (hc : c ∈ doc.containers)
    (hrej : parseAdElement b now c = none) :
    (∀ (doc2 : HtmlDoc) (n2 e2 : ℤ),
        (parseHtmlFile b (Except.ok doc2) n2 e2).stats.successfullyParsed +
          (parseHtmlFile b (Except.ok doc2) n2 e2).stats.failedToParse ≤
        (parseHtmlFile b (Except.ok doc2) n2 e2).stats.totalAdsFound)
    ∧ (parseHtmlFile b (Except.ok doc) now el).stats.successfullyParsed +
        (parseHtmlFile b (Except.ok doc) now el).stats.failedToParse <
      (parseHtmlFile b (Except.ok doc) now el).stats.totalAdsFound := by
  constructor
  · intro doc2 n2 e2
    simp only [parseHtmlFile]
    have hle := collect_counts_le
      (doc2.containers.map (fun x => Except.ok (parseAdElement b n2 x))) 0
    simpa using hle
  · simp only [parseHtmlFile]
    have hmem : Except.ok (none : Option ParsedAd) ∈
        doc.containers.map (fun x => (Except.ok (parseAdElement b now x) : ContainerOutcome)) :=
      List.mem_map.mpr ⟨c, hc, by rw [hrej]⟩
    have hlt := collect_counts_lt
      (doc.containers.map (fun x => (Except.ok (parseAdElement b now x) : ContainerOutcome)))
      0 hmem
    simpa using hlt

/-- Witness for C10 at a one-container page whose container is
rejected for a missing title. -/
theorem C10_stats_inequality_witness :
    (parseHtmlFile kpBaseUrl
        (Except.ok ⟨[{ c4container with titleText := "" }], 0⟩) 0 0).stats.successfullyParsed +
      (parseHtmlFile kpBaseUrl
        (Except.ok ⟨[{ c4container with titleText := "" }], 0⟩) 0 0).stats.failedToParse <
    (parseHtmlFile kpBaseUrl
        (Except.ok ⟨[{ c4container with titleText := "" }], 0⟩) 0 0).stats.totalAdsFound :=
  (C10_stats_inequality kpBaseUrl 0 0 ⟨[{ c4container with titleText := "" }], 0⟩
    { c4container with titleText := "" } (by simp) (by decide)).2

end RivalSale
